import Mathlib

/-!
Shallow embedding of the file discovery and filtering engine of the
share-my-repo repository (src/file_processor.py, src/main.py, src/git_info.py).

Paths are modelled as lists of path segments (`List String`), without the
POSIX anchor segment: an absolute path /a/b/c is `[ "a", "b", "c" ]`.
Python `str` values are modelled as Lean `String`, but every string
operation is implemented structurally over the character list so that the
kernel can evaluate it (the built-in `String` operations do not reduce).
-/

/-- Python exception kinds that the modelled code can raise. -/
inductive PyErr where
  | attributeError
  | valueError
deriving DecidableEq, Repr

deriving instance DecidableEq for Except

/-- `str.lower()` (ASCII case folding, which is all the sources use). -/
def strLower (s : String) : String :=
  String.mk (s.data.map Char.toLower)

/-- `str.replace("\\", "/")`: single-character replacement is a map. -/
def replaceBackslash (s : String) : String :=
  String.mk (s.data.map (fun c => if c = '\\' then '/' else c))

/-- Auxiliary: split a character list at a separator character. -/
def splitCharAux (sep : Char) : List Char → List Char → List (List Char)
  | [], acc => [acc.reverse]
  | c :: cs, acc =>
    if c = sep then acc.reverse :: splitCharAux sep cs []
    else splitCharAux sep cs (c :: acc)

/-- `str.split(sep)` for a one-character separator. -/
def pySplit (sep : Char) (s : String) : List String :=
  (splitCharAux sep s.data []).map String.mk

/-- Join strings with a separator - "sep".join(parts). -/
def strJoin (sep : String) : List String → String
  | [] => String.mk []
  | [p] => p
  | p :: ps => String.mk (p.data ++ sep.data ++ (strJoin sep ps).data)

/-- `str.strip()` with the ASCII whitespace that matters here. -/
def strTrim (s : String) : String :=
  String.mk (((s.data.dropWhile Char.isWhitespace).reverse.dropWhile
      Char.isWhitespace).reverse)

/-- `str.startswith(p)`. -/
def strStartsWith (s p : String) : Bool :=
  List.isPrefixOf p.data s.data

/-- `str.endswith(p)`. -/
def strEndsWith (s p : String) : Bool :=
  List.isPrefixOf p.data.reverse s.data.reverse

/-- Auxiliary for substring containment: does `p` occur in `s`. -/
def listContainsSeq (p : List Char) : List Char → Bool
  | [] => List.isPrefixOf p []
  | c :: cs => List.isPrefixOf p (c :: cs) || listContainsSeq p cs

/-- Python `p in s` substring test. -/
def strContains (s p : String) : Bool :=
  listContainsSeq p.data s.data

/-- String ordering by code points, as Python compares `str`. -/
def strLtB (a b : String) : Bool :=
  go a.data b.data
where go : List Char → List Char → Bool
  | [], [] => false
  | [], _ :: _ => true
  | _ :: _, [] => false
  | c :: cs, d :: ds => c.toNat < d.toNat || (c.toNat = d.toNat && go cs ds)

/-- Segment-list ordering: Python `Path` ordering compares the parts tuples. -/
def partsLe (a b : List String) : Bool :=
  go a b
where go : List String → List String → Bool
  | [], _ => true
  | _ :: _, [] => false
  | x :: xs, y :: ys => strLtB x y || (x = y && go xs ys)

/-- Python `sorted` modelled as a stable insertion sort w.r.t. `partsLe`. -/
def pySorted (l : List (List String)) : List (List String) :=
  go l
where
  ins (x : List String) : List (List String) → List (List String)
    | [] => [x]
    | y :: ys => if partsLe x y then x :: y :: ys else y :: ins x ys
  go : List (List String) → List (List String)
    | [] => []
    | x :: xs => ins x (go xs)

/-!
`fnmatch.fnmatch(name, pattern)` on a POSIX system: case-sensitive glob
matching. The sources only ever use literal characters and the wildcards
`*` and `?`, which this matcher implements exactly (`[...]` character
classes do not occur in the repository or its claims and are not modelled).
Implemented with fuel so the kernel can evaluate it; the fuel
`pattern.length + name.length + 1` is always sufficient because every
recursive call strictly decreases the combined length.
-/
def globMatchF : Nat → List Char → List Char → Bool
  | 0, _, _ => false
  | _ + 1, [], [] => true
  | fuel + 1, '*' :: ps, [] => globMatchF fuel ps []
  | _ + 1, _ :: _, [] => false
  | _ + 1, [], _ :: _ => false
  | fuel + 1, p :: ps, c :: cs =>
    if p = '*' then globMatchF fuel ps (c :: cs) || globMatchF fuel (p :: ps) cs
    else if p = '?' then globMatchF fuel ps cs
    else p = c && globMatchF fuel ps cs

/-- `fnmatch.fnmatch(name, pattern)`. -/
def fnmatch (name pattern : String) : Bool :=
  globMatchF (pattern.data.length + name.data.length + 1) pattern.data name.data

/-- `PurePath.relative_to`: `some` of the remaining segments when `root`
is a prefix of `p`, `none` models the `ValueError` raise. -/
def relativeTo (p root : List String) : Option (List String) :=
  if List.isPrefixOf root p then some (p.drop root.length) else none

/-- `Path.name`: the final path segment (empty for an empty path). -/
def pathName (p : List String) : String :=
  (p.getLast?).getD (String.mk [])

/-- `str(path)` for a relative path: segments joined with `/`. -/
def pathStr (p : List String) : String :=
  strJoin (String.mk [ '/' ]) p

example : pySplit '/' (String.mk "sub/app.log".data) = [ "sub", "app.log" ] := by decide
example : fnmatch ( "app.log" ) ( "*.log" ) = true := by decide
example : fnmatch ( "app.log" ) ( "*.txt" ) = false := by decide
example : strLower ( "AbC" ) = ( "abc" ) := by decide
example : strTrim ( " x " ) = ( "x" ) := by decide
example : strEndsWith ( "a.egg-info" ) ( ".egg-info" ) = true := by decide
example : strContains ( "x/y.egg-info/z" ) ( ".egg-info" ) = true := by decide
example : pySorted [ [ "b" ], [ "a" ] ] = [ [ "a" ], [ "b" ] ] := by decide
example : relativeTo [ "p", "src", "m.py" ] [ "p" ] = some [ "src", "m.py" ] := by decide
example : relativeTo [ "q", "m.py" ] [ "p" ] = none := by decide

/-!
## FileProcessor: path normalization and pattern matching
(src/file_processor.py)
-/

/-- FileProcessor._normalize_path on a non-null relative path:
`str(path).replace("\\", "/").lower()`. The null-path AttributeError is
modelled at the call sites that can receive a null path. -/
def normalize_path (p : List String) : String :=
  strLower (replaceBackslash (pathStr p))

/-- `PurePath.match(pattern)` for the relative patterns the sources use:
an empty pattern raises ValueError; otherwise the pattern's segments are
matched right-anchored, segment by segment, with glob matching.
(Leading-slash absolute patterns never occur in this repository.) -/
def pathMatch (parts : List String) (pattern : String) : Except PyErr Bool :=
  if pattern = String.mk [] then Except.error PyErr.valueError
  else
    let patParts := (pySplit '/' pattern).filter (fun s => s ≠ String.mk [])
    if patParts = [] then Except.error PyErr.valueError
    else
      Except.ok (patParts.length ≤ parts.length &&
        ((parts.drop (parts.length - patParts.length)).zip patParts).all
          (fun pr => fnmatch pr.1 pr.2))

/-- One iteration of the pattern loop in FileProcessor.matches_pattern:
strip + lower the pattern, skip it when empty, then try the three rules
(filename fnmatch, normalized relative path fnmatch, Path.match with
ValueError swallowed). -/
def matchesPatternLoop (filename normPath : String) (relParts : List String) :
    List String → Bool
  | [] => false
  | pat :: rest =>
    let p := strLower (strTrim pat)
    if p = String.mk [] then matchesPatternLoop filename normPath relParts rest
    else if fnmatch filename p then true
    else if fnmatch normPath p then true
    else
      match pathMatch relParts p with
      | Except.ok true => true
      | Except.ok false => matchesPatternLoop filename normPath relParts rest
      | Except.error _ => matchesPatternLoop filename normPath relParts rest

/-- FileProcessor.matches_pattern. The path argument is `none` for a Python
`None` input (which raises AttributeError as soon as it is touched), and the
`relative_to` call raises ValueError for a path not under `root`. The empty
pattern list returns False before the path is touched. -/
def matches_pattern (path : Option (List String)) (patterns : List String)
    (root_path : List String) : Except PyErr Bool :=
  if patterns = [] then Except.ok false
  else
    match path with
    | none => Except.error PyErr.attributeError
    | some p =>
      match relativeTo p root_path with
      | none => Except.error PyErr.valueError
      | some rel =>
        let normPath := normalize_path rel
        let filename := strLower (pathName p)
        Except.ok (matchesPatternLoop filename normPath rel patterns)

/-!
## FileProcessor: gitignore scopes
-/

/-- The pattern set parsed from one .gitignore file:
stripped lines, dropping empties and `#` comments
(FileProcessor.load_gitignore_patterns, inner loop). -/
def parseGitignoreLines (lines : List String) : List String :=
  (lines.map strTrim).filter
    (fun l => l ≠ String.mk [] && !strStartsWith l (String.mk [ '#' ]))

/-- An ignore-scope table: each entry maps the directory holding one
.gitignore file to its pattern set (Python dict, keyed by directory). -/
abbrev Scopes : Type := List (List String × List String)

/-- Python dict assignment `d[k] = v` on the association-list model. -/
def scopeInsert (k : List String) (v : List String) : Scopes → Scopes
  | [] => [(k, v)]
  | kv :: rest => if kv.1 = k then (k, v) :: rest else kv :: scopeInsert k v rest

/-- One scope of FileProcessor.matches_gitignore: lower each pattern and
apply the same three rules as matches_pattern (ValueError from Path.match
swallowed). -/
def gitignoreScopeMatches (filename normPath : String)
    (relParts : List String) : List String → Bool
  | [] => false
  | pat :: rest =>
    let p := strLower pat
    if fnmatch filename p then true
    else if fnmatch normPath p then true
    else
      match pathMatch relParts p with
      | Except.ok true => true
      | Except.ok false => gitignoreScopeMatches filename normPath relParts rest
      | Except.error _ => gitignoreScopeMatches filename normPath relParts rest

/-- FileProcessor.matches_gitignore: try every scope whose directory is an
ancestor of the file (relative_to failure means "not an ancestor", the
ValueError is caught and the scope skipped). -/
def matches_gitignore (file_path : List String) : Scopes → Bool
  | [] => false
  | (parent, patterns) :: rest =>
    match relativeTo file_path parent with
    | none => matches_gitignore file_path rest
    | some rel =>
      let filename := strLower (pathName file_path)
      let normPath := normalize_path rel
      if gitignoreScopeMatches filename normPath rel patterns then true
      else matches_gitignore file_path rest

/-!
## FileProcessor: directory/file checks
-/

/-- FileProcessor.skip_directories. -/
def skip_directories : List String :=
  [ ".git", "__pycache__", "node_modules", ".venv", "venv", ".env", "env",
    "build", "dist", ".pytest_cache", ".egg-info" ]

/-- FileProcessor.binary_extensions. -/
def binary_extensions : List String :=
  [ ".jpg", ".jpeg", ".png", ".gif", ".bmp", ".svg", ".pdf", ".doc",
    ".docx", ".xls", ".xlsx", ".exe", ".dll", ".so", ".dylib", ".zip",
    ".tar", ".gz", ".rar", ".7z", ".mp3", ".mp4", ".avi", ".mov", ".pyc",
    ".pyo", ".class", ".egg" ]

/-- FileProcessor.should_skip_directory. -/
def should_skip_directory (dir_path root_path : List String) : Bool :=
  let dirName := pathName dir_path
  if skip_directories.contains dirName || strEndsWith dirName ( ".egg-info" )
  then true
  else
    match relativeTo dir_path root_path with
    | none => false
    | some rel =>
      rel.any (fun part =>
        strEndsWith part ( ".egg-info" ) || skip_directories.contains part)

/-- `PurePath.suffix` of a file name: the extension from the last dot,
provided that dot is neither the first nor the last character. -/
def pathSuffix (name : String) : String :=
  let segs := pySplit '.' name
  if 2 ≤ segs.length && segs.getLast? ≠ some (String.mk []) &&
      !(segs.length = 2 && segs.head? = some (String.mk []))
  then String.mk ('.' :: ((segs.getLast?).getD (String.mk [])).data)
  else String.mk []

example : pathSuffix ( "a.b.c" ) = ( ".c" ) := by decide
example : pathSuffix ( ".gitignore" ) = String.mk [] := by decide
example : pathSuffix ( "x.PY" ) = ( ".PY" ) := by decide
example : pathSuffix ( "noext" ) = String.mk [] := by decide
example : pathSuffix ( "a." ) = String.mk [] := by decide

/-- FileProcessor.is_text_file, over the observations the code makes of
the file: its name, the full path string, the stat size (with `statOk` the
success of `stat()`), and the opened bytes (with `readOk` the success of
`open`/`read`; `bytes` is the file content, of which the code reads the
first 1024 bytes). -/
def is_text_file (name : String) (fullPathStr : String) (size : Nat)
    (statOk : Bool) (bytes : List Nat) (readOk : Bool)
    (max_file_size : Nat) : Bool :=
  let suffix := strLower (pathSuffix name)
  if binary_extensions.contains suffix || suffix = ( ".egg" ) then false
  else if strContains fullPathStr ( ".egg-info" ) then false
  else if !statOk then false
  else if size > max_file_size * 10 then false
  else if !readOk then false
  else if (bytes.take 1024).contains 0 then false
  else true

/-- Truthiness of an optional Python list (None and [] are falsy). -/
def truthyList (o : Option (List String)) : Bool :=
  match o with
  | none => false
  | some l => !l.isEmpty

/-- Truthiness of the optional scope dict (None and {} are falsy). -/
def truthyScopes (o : Option Scopes) : Bool :=
  match o with
  | none => false
  | some s => !s.isEmpty

/-- FileProcessor.should_include_file: gitignore scopes first (when the
dict is truthy), then exclude patterns (when truthy), then include
patterns (required to match when truthy, otherwise everything passes). -/
def should_include_file (file_path root_path : List String)
    (include_patterns exclude_patterns : Option (List String))
    (gitignore_patterns : Option Scopes) : Except PyErr Bool :=
  if truthyScopes gitignore_patterns &&
      matches_gitignore file_path (gitignore_patterns.getD []) then
    Except.ok false
  else
    let cont : Except PyErr Bool :=
      if truthyList include_patterns then
        matches_pattern (some file_path) (include_patterns.getD []) root_path
      else Except.ok true
    if truthyList exclude_patterns then
      match matches_pattern (some file_path) (exclude_patterns.getD []) root_path with
      | Except.error e => Except.error e
      | Except.ok true => Except.ok false
      | Except.ok false => cont
    else cont

example :
    matches_pattern (some [ "project", "src", "main.py" ]) [ "*.py" ]
      [ "project" ] = Except.ok true := by decide
example :
    matches_pattern (some [ "project", "src", "main.py" ]) [ "src/*.py" ]
      [ "project" ] = Except.ok true := by decide
example :
    matches_pattern (some [ "project", "src", "main.py" ]) [ "*.txt" ]
      [ "project" ] = Except.ok false := by decide
example :
    matches_pattern (some [ "project", "src", "Main.PY" ]) [ "main.py" ]
      [ "project" ] = Except.ok true := by decide
example :
    matches_pattern (some [ "project", "src", "subdir", "file.py" ])
      [ "src/**/*.py" ] [ "project" ] = Except.ok true := by decide
example :
    matches_pattern none [ "*.py" ] [ "project" ] =
      Except.error PyErr.attributeError := by decide
example :
    matches_gitignore [ "d", "sub", "app.log" ]
      [ ([ "d" ], [ "*.log" ]) ] = true := by decide
example :
    should_skip_directory [ "r", "node_modules" ] [ "r" ] = true := by decide
example :
    is_text_file ( "a.py" ) ( "r/a.py" ) 50 true [ 104, 105 ] true 16384
      = true := by decide
example :
    is_text_file ( "a.py" ) ( "r/a.py" ) 50 true [ 104, 0, 105 ] true 16384
      = false := by decide
example :
    is_text_file ( "b.png" ) ( "r/b.png" ) 50 true [ 104 ] true 16384
      = false := by decide

/-!
## Filesystem model and FileProcessor.discover_files

A directory tree: a file carries the observations the code can make of it
(name, stat size with `statOk` the success of `stat()`, the content bytes
with `readOk` the success of opening/reading it, and the content decoded
as text lines, which is what reading a .gitignore in text mode yields).
A directory carries `listable`, the success of `os.scandir` on it: `os.walk`
(with its default error handler) and `Path.rglob` both skip an unlistable
directory silently and continue with its siblings.
-/

/-- The observations the sources make of one regular file. -/
structure FMeta where
  name : String
  size : Nat
  bytes : List Nat
  statOk : Bool
  readOk : Bool
  lines : List String

/-- One filesystem entry. -/
inductive FSEntry where
  | file (m : FMeta)
  | dir (name : String) (listable : Bool) (entries : List FSEntry)

mutual

/-- FileProcessor.load_gitignore_patterns: `root.rglob(".gitignore")`
yields every entry named `.gitignore` reachable through listable
directories; for each, the parent directory is mapped to the parsed
pattern set (empty when the entry cannot be read as a text file, e.g. an
unreadable file or a directory of that name - the warning path). -/
def rglobGitignore (cur : List String) : FSEntry → Scopes
  | FSEntry.file m =>
    if m.name = ( ".gitignore" ) then
      [ (cur, if m.readOk then parseGitignoreLines m.lines else []) ]
    else []
  | FSEntry.dir n listable es =>
    (if n = ( ".gitignore" ) then [ (cur, ([] : List String)) ] else []) ++
    (if listable then rglobGitignoreList (cur ++ [ n ]) es else [])

/-- `rglob` over a list of sibling entries. -/
def rglobGitignoreList (cur : List String) : List FSEntry → Scopes
  | [] => []
  | e :: es => rglobGitignore cur e ++ rglobGitignoreList cur es

end

/-- FileProcessor.load_gitignore_patterns: the scope dict built by
assigning each found .gitignore in rglob order. -/
def load_gitignore_patterns (root_path : List String) (rootListable : Bool)
    (entries : List FSEntry) : Scopes :=
  if rootListable then
    (rglobGitignoreList root_path entries).foldl
      (fun acc kv => scopeInsert kv.1 kv.2 acc) []
  else []

/-- The per-file body of the walk loop in FileProcessor.discover_files:
skip non-text files, then ask should_include_file; an escaping exception
aborts the walk (second component true) while keeping the files already
collected. -/
def walkFilesHere (mfs : Nat) (root_path : List String)
    (inc exc : Option (List String)) (gi : Option Scopes)
    (cur : List String) : List FSEntry → List (List String) × Bool
  | [] => ([], false)
  | FSEntry.dir _ _ _ :: rest => walkFilesHere mfs root_path inc exc gi cur rest
  | FSEntry.file m :: rest =>
    let fp := cur ++ [ m.name ]
    if !is_text_file m.name (pathStr fp) m.size m.statOk m.bytes m.readOk mfs
    then walkFilesHere mfs root_path inc exc gi cur rest
    else
      match should_include_file fp root_path inc exc gi with
      | Except.error _ => ([], true)
      | Except.ok false => walkFilesHere mfs root_path inc exc gi cur rest
      | Except.ok true =>
        let r := walkFilesHere mfs root_path inc exc gi cur rest
        (fp :: r.1, r.2)

mutual

/-- `os.walk` with the pruning of FileProcessor.discover_files: visiting
a (pruning-surviving, listable) directory entry processes its file
entries first (walkFilesHere), then descends into its subdirectories; an
abort propagates and cuts the rest of the traversal while keeping the
files already collected. `cur` is the path of the visited directory. -/
def walkVisit (mfs : Nat) (root_path : List String)
    (inc exc : Option (List String)) (gi : Option Scopes)
    (cur : List String) : FSEntry → List (List String) × Bool
  | FSEntry.file _ => ([], false)
  | FSEntry.dir _ _ es =>
    let f := walkFilesHere mfs root_path inc exc gi cur es
    if f.2 then f
    else
      let d := walkSubdirs mfs root_path inc exc gi cur es
      (f.1 ++ d.1, d.2)

/-- Phase two of visiting a directory: descend into each subdirectory
that survives should_skip_directory, in order; an unlistable subdirectory
is skipped silently (the default os.walk error handler). -/
def walkSubdirs (mfs : Nat) (root_path : List String)
    (inc exc : Option (List String)) (gi : Option Scopes)
    (cur : List String) : List FSEntry → List (List String) × Bool
  | [] => ([], false)
  | e :: rest =>
    match e with
    | FSEntry.file _ => walkSubdirs mfs root_path inc exc gi cur rest
    | FSEntry.dir n listable _ =>
      if should_skip_directory (cur ++ [ n ]) root_path then
        walkSubdirs mfs root_path inc exc gi cur rest
      else
        let sub :=
          if listable then walkVisit mfs root_path inc exc gi (cur ++ [ n ]) e
          else ([], false)
        if sub.2 then (sub.1, true)
        else
          let r := walkSubdirs mfs root_path inc exc gi cur rest
          (sub.1 ++ r.1, r.2)

end

/-- Visiting one directory in full: its files, then its subtrees. -/
def walkDir (mfs : Nat) (root_path : List String)
    (inc exc : Option (List String)) (gi : Option Scopes)
    (cur : List String) (entries : List FSEntry) :
    List (List String) × Bool :=
  walkVisit mfs root_path inc exc gi cur (FSEntry.dir (pathName cur) true entries)

/-- FileProcessor.discover_files on a root directory (given by its path,
its listability and its entries): load the ignore scopes when requested,
walk, and return the collected files sorted; the warning list holds the
message printed when an exception escapes the walk loop (there are no
other prints in the traversal itself). -/
def discover_files (root_path : List String) (rootListable : Bool)
    (entries : List FSEntry) (include_patterns exclude_patterns : Option (List String))
    (use_gitignore : Bool) (mfs : Nat) :
    List (List String) × List String :=
  let gi : Option Scopes :=
    if use_gitignore then
      some (load_gitignore_patterns root_path rootListable entries)
    else none
  let w :=
    if rootListable then
      walkDir mfs root_path include_patterns exclude_patterns gi root_path entries
    else ([], false)
  (pySorted w.1,
    if w.2 then [ String.mk ( "Error discovering files" ).data ] else [])

/-- The Python signature default `use_gitignore: bool = True` of
FileProcessor.discover_files. -/
def discover_files_default (root_path : List String) (rootListable : Bool)
    (entries : List FSEntry)
    (include_patterns exclude_patterns : Option (List String))
    (mfs : Nat) : List (List String) × List String :=
  discover_files root_path rootListable entries include_patterns
    exclude_patterns true mfs

/-- A plain text file node with the given name and harmless content. -/
def txtFile (name : String) : FSEntry :=
  FSEntry.file { name := name, size := 5, bytes := [ 104, 105 ], statOk := true,
                 readOk := true, lines := [ "hi" ] }

/-- A .gitignore file node with the given lines. -/
def giFile (lines : List String) : FSEntry :=
  FSEntry.file { name := ".gitignore", size := 5, bytes := [ 42 ],
                 statOk := true, readOk := true, lines := lines }

example :
    (discover_files [ "r" ] true
      [ txtFile ( "a.py" ),
        FSEntry.dir ( ".git" ) true [ txtFile ( "config" ) ],
        FSEntry.dir ( "sub" ) true [ txtFile ( "b.py" ) ] ]
      none none false 16384).1 =
    [ [ "r", "a.py" ], [ "r", "sub", "b.py" ] ] := by decide

example :
    (discover_files [ "d" ] true
      [ giFile [ "*.log" ],
        FSEntry.dir ( "sub" ) true [ txtFile ( "app.log" ), txtFile ( "n.txt" ) ] ]
      none none true 16384).1 =
    [ [ "d", ".gitignore" ], [ "d", "sub", "n.txt" ] ] := by decide

example :
    (discover_files [ "d" ] true
      [ giFile [ "*.log" ],
        FSEntry.dir ( "sub" ) true [ txtFile ( "app.log" ), txtFile ( "n.txt" ) ] ]
      none none false 16384).1 =
    [ [ "d", ".gitignore" ], [ "d", "sub", "app.log" ], [ "d", "sub", "n.txt" ] ] := by decide

/-!
## FileProcessor.read_file_content

Python opens the file in text mode with `encoding="utf-8"` and
`errors="ignore"` (invalid byte sequences are dropped) and the default
`newline=None`, so universal-newline translation applies: in the decoded
stream every "\r\n" pair and every lone "\r" becomes "\n" before
`f.read(n)` counts its `n` characters. The decoder below is UTF-8 with
the standard validity ranges; it is fuelled by the byte count so the
kernel can evaluate it; `univNewlines` is the newline translation.
-/

/-- Is `b` a UTF-8 continuation byte. -/
def isCont (b : Nat) : Bool := 0x80 ≤ b && b ≤ 0xBF

/-- UTF-8 decoding with invalid bytes dropped (errors="ignore"). -/
def utf8DecodeIgnoreF : Nat → List Nat → List Char
  | 0, _ => []
  | _ + 1, [] => []
  | fuel + 1, b :: bs =>
    if b < 0x80 then Char.ofNat b :: utf8DecodeIgnoreF fuel bs
    else if 0xC2 ≤ b && b ≤ 0xDF then
      match bs with
      | b2 :: bs2 =>
        if isCont b2 then
          Char.ofNat ((b - 0xC0) * 64 + (b2 - 0x80)) :: utf8DecodeIgnoreF fuel bs2
        else utf8DecodeIgnoreF fuel bs
      | [] => []
    else if 0xE0 ≤ b && b ≤ 0xEF then
      match bs with
      | b2 :: b3 :: bs3 =>
        if ((b = 0xE0 && 0xA0 ≤ b2 && b2 ≤ 0xBF) ||
            (b = 0xED && 0x80 ≤ b2 && b2 ≤ 0x9F) ||
            (b ≠ 0xE0 && b ≠ 0xED && isCont b2)) && isCont b3 then
          Char.ofNat ((b - 0xE0) * 4096 + (b2 - 0x80) * 64 + (b3 - 0x80)) ::
            utf8DecodeIgnoreF fuel bs3
        else utf8DecodeIgnoreF fuel bs
      | _ => []
    else if 0xF0 ≤ b && b ≤ 0xF4 then
      match bs with
      | b2 :: b3 :: b4 :: bs4 =>
        if ((b = 0xF0 && 0x90 ≤ b2 && b2 ≤ 0xBF) ||
            (b = 0xF4 && 0x80 ≤ b2 && b2 ≤ 0x8F) ||
            (b ≠ 0xF0 && b ≠ 0xF4 && isCont b2)) && isCont b3 && isCont b4 then
          Char.ofNat ((b - 0xF0) * 262144 + (b2 - 0x80) * 4096 +
              (b3 - 0x80) * 64 + (b4 - 0x80)) :: utf8DecodeIgnoreF fuel bs4
        else utf8DecodeIgnoreF fuel bs
      | _ => []
    else utf8DecodeIgnoreF fuel bs

/-- Decode a whole byte list. -/
def utf8DecodeIgnore (bytes : List Nat) : List Char :=
  utf8DecodeIgnoreF bytes.length bytes

/-- Universal-newline translation of text mode (newline=None): every
"\r\n" pair and every lone "\r" in the decoded stream becomes "\n". -/
def univNewlines : List Char → List Char
  | [] => []
  | '\r' :: '\n' :: cs => '\n' :: univNewlines cs
  | '\r' :: cs => '\n' :: univNewlines cs
  | c :: cs => c :: univNewlines cs

/-- The decoded text stream Python's text-mode file object exposes:
UTF-8 ignore-decoding followed by universal-newline translation. -/
def textStream (bytes : List Nat) : List Char :=
  univNewlines (utf8DecodeIgnore bytes)

/-- The UTF-8 byte length of decoded content. -/
def utf8Len (cs : List Char) : Nat :=
  (cs.map Char.utf8Size).sum

/-- FileProcessor.read_file_content: `stat().st_size` is the byte length;
when it exceeds max_file_size, text-mode `f.read(max_file_size)` returns
the first max_file_size characters of the decoded, newline-translated
stream; otherwise the whole translated stream; truncated is the flag
returned alongside. `ioOk` false models the except-branch (stat or open
raising), which yields the synthetic error-message content and `False`. -/
def read_file_content (ioOk : Bool) (errMsg : String) (bytes : List Nat)
    (max_file_size : Nat) : List Char × Bool :=
  if !ioOk then (( "Error reading file: " ).data ++ errMsg.data, false)
  else if bytes.length > max_file_size then
    ((textStream bytes).take max_file_size, true)
  else (textStream bytes, false)

example : utf8DecodeIgnore [ 104, 105 ] = [ 'h', 'i' ] := by decide
example : utf8DecodeIgnore [ 0xC3, 0xA9, 0xC3, 0xA9 ] = [ 'é', 'é' ] := by decide
example : univNewlines [ 'a', '\r', '\n', 'b' ] = [ 'a', '\n', 'b' ] := by decide
example : univNewlines [ 'a', '\r', 'b' ] = [ 'a', '\n', 'b' ] := by decide
example : textStream [ 97, 13, 10, 98, 99 ] = [ 'a', '\n', 'b', 'c' ] := by decide
example : utf8Len [ 'é', 'é' ] = 4 := by decide

/-!
## Preview truncation (src/main.py, process_directory / process_single_file)
-/

/-- `str.splitlines()` for newline-separated content (the separator the
surrounding code joins with): split on the line feed and drop the final
empty piece produced by a trailing newline. -/
def pySplitlines (s : String) : List String :=
  if s.data = [] then []
  else
    let l := pySplit '\n' s
    if l.getLast? = some (String.mk []) then l.dropLast else l

/-- The marker line appended by the preview branch, with the preview
limit interpolated - f"[... Preview truncated after {preview} lines ...]". -/
def previewMarker (preview : Nat) : String :=
  String.mk (( "[... Preview truncated after " ).data ++ (Nat.repr preview).data
    ++ ( " lines ...]" ).data)

/-- The preview/size truncation step of main.process_directory (lines
209-218) and main.process_single_file (lines 260-269): under a truthy
preview limit, keep the first `preview` lines, append the marker when
lines were dropped, and tag the record "preview"; otherwise tag "size"
exactly when the read was size-truncated. Returns the final content and
the truncated_type. -/
def apply_preview (content : String) (truncated : Bool)
    (preview : Option Nat) : String × Option String :=
  match preview with
  | some n =>
    if n ≠ 0 then
      let lines := pySplitlines content
      let c := strJoin (String.mk [ '\n' ]) (lines.take n)
      let c :=
        if lines.length > n then
          String.mk (c.data ++ '\n' :: (previewMarker n).data)
        else c
      (c, some ( "preview" ))
    else (content, if truncated then some ( "size" ) else none)
  | none => (content, if truncated then some ( "size" ) else none)

example :
    apply_preview ( "l1\nl2\nl3\nl4\nl5" ) true (some 2) =
      ( "l1\nl2\n[... Preview truncated after 2 lines ...]", some ( "preview" )) := by
  decide

/-!
## GitInfo (src/git_info.py)

The process working directory is modelled as explicit state (a path
string); `os.chdir` succeeds according to the static environment. A git
invocation is an oracle: each call either succeeds with decoded output or
raises (subprocess.CalledProcessError / FileNotFoundError). A propagating
exception is an `Except.error` carrying the working directory at the
moment of the raise; a normal return carries the result and the final
working directory.
-/

/-- The git invocations the code makes. -/
inductive GitCall where
  | revParseGitDir
  | revParseHead
  | branchShow
  | logLast
deriving DecidableEq

/-- The environment of one GitInfo object: its repo_path, which
directories the process can chdir into, and the outcome of each git
invocation (none models a raise from check_output). -/
structure GitCtx where
  repoPath : String
  chdirOk : String → Bool
  gitOut : GitCall → Option String

/-- The result dictionary of GitInfo.get_git_info. -/
inductive GitResult where
  | errDict (msg : String)
  | info (commit branch author date : String)
deriving DecidableEq

/-- GitInfo.is_git_repository: chdir to repo_path, run
`git rev-parse --git-dir`, chdir back; every exception kind is caught and
answered False after restoring the directory; a failing restore raises
out of the handler. -/
def is_git_repository (g : GitCtx) (cwd0 : String) :
    Except String (Bool × String) :=
  let original := cwd0
  if g.chdirOk g.repoPath then
    let cwd1 := g.repoPath
    match g.gitOut GitCall.revParseGitDir with
    | some _ =>
      if g.chdirOk original then Except.ok (true, original)
      else Except.error cwd1
    | none =>
      if g.chdirOk original then Except.ok (false, original)
      else Except.error cwd1
  else
    if g.chdirOk original then Except.ok (false, original)
    else Except.error cwd0

/-- GitInfo.get_git_info: answer the error dictionary for a non-repo;
otherwise chdir to repo_path, run the three queries, restore the
directory on the success path and in the exception handler. The handler
restores before returning the failure dictionary; a failing restore
raises. The author/date split of the log output mirrors
`.strip().split("\n")` with the guarded indexing of lines 39-40. -/
def get_git_info (g : GitCtx) (cwd0 : String) :
    Except String (GitResult × String) :=
  match is_git_repository g cwd0 with
  | Except.error c => Except.error c
  | Except.ok (false, cwd1) =>
    Except.ok (GitResult.errDict ( "Not a git repository" ), cwd1)
  | Except.ok (true, cwd1) =>
    let original := cwd1
    if g.chdirOk g.repoPath then
      let cwd2 := g.repoPath
      match g.gitOut GitCall.revParseHead with
      | none =>
        if g.chdirOk original then
          Except.ok (GitResult.errDict ( "Git command failed" ), original)
        else Except.error cwd2
      | some commitRaw =>
        match g.gitOut GitCall.branchShow with
        | none =>
          if g.chdirOk original then
            Except.ok (GitResult.errDict ( "Git command failed" ), original)
          else Except.error cwd2
        | some branchRaw =>
          match g.gitOut GitCall.logLast with
          | none =>
            if g.chdirOk original then
              Except.ok (GitResult.errDict ( "Git command failed" ), original)
            else Except.error cwd2
          | some logRaw =>
            let commitInfo := pySplit '\n' (strTrim logRaw)
            let author := (commitInfo.head?).getD ( "Unknown" )
            let date := (commitInfo.drop 1).headD ( "Unknown" )
            if g.chdirOk original then
              Except.ok (GitResult.info (strTrim commitRaw) (strTrim branchRaw)
                author date, original)
            else Except.error cwd2
    else
      if g.chdirOk original then
        Except.ok (GitResult.errDict ( "Git command failed" ), original)
      else Except.error original

/-!
## The processing entry point (src/main.py, process_repositories)
-/

/-- The determination of `use_gitignore` in main.process_repositories
(lines 64-81): it is initialised to False and only ever set from an
explicit `use_gitignore` key of a truthy TOML config; absent a config or
absent the key it stays False. `configTruthy` is the truthiness of the
loaded config dict and `cfgUseGitignore` the value under the key, when
present. -/
def process_repositories_use_gitignore (configTruthy : Bool)
    (cfgUseGitignore : Option Bool) : Bool :=
  if configTruthy then
    match cfgUseGitignore with
    | some b => b
    | none => false
  else false

/-- main.process_directory forwards its use_gitignore argument to
FileProcessor.discover_files unchanged (line 190); the file list the
directory record is built from is therefore this discovery result. -/
def process_directory_files (root_path : List String) (rootListable : Bool)
    (entries : List FSEntry)
    (include_patterns exclude_patterns : Option (List String))
    (use_gitignore : Bool) (mfs : Nat) : List (List String) :=
  (discover_files root_path rootListable entries include_patterns
    exclude_patterns use_gitignore mfs).1

/-!
## Derived descriptions of the traversal, used to state and prove the
claims: the Boolean value of the inclusion decision, and the list of
files reachable through listable, unpruned directories that pass the
text and inclusion filters (which the walk is shown to compute).
-/

/-- The inclusion decision as a Boolean (False when it would raise). -/
def should_include_fileB (file_path root_path : List String)
    (inc exc : Option (List String)) (gi : Option Scopes) : Bool :=
  match should_include_file file_path root_path inc exc gi with
  | Except.ok b => b
  | Except.error _ => false

/-- Is this file accepted by the per-file body of the walk loop. -/
def fileAccepted (mfs : Nat) (root_path : List String)
    (inc exc : Option (List String)) (gi : Option Scopes)
    (cur : List String) (m : FMeta) : Bool :=
  is_text_file m.name (pathStr (cur ++ [ m.name ])) m.size m.statOk m.bytes
    m.readOk mfs &&
  should_include_fileB (cur ++ [ m.name ]) root_path inc exc gi

/-- The accepted files among the file entries of one directory. -/
def acceptedHere (mfs : Nat) (root_path : List String)
    (inc exc : Option (List String)) (gi : Option Scopes)
    (cur : List String) : List FSEntry → List (List String)
  | [] => []
  | FSEntry.file m :: rest =>
    (if fileAccepted mfs root_path inc exc gi cur m then [ cur ++ [ m.name ] ]
     else []) ++ acceptedHere mfs root_path inc exc gi cur rest
  | FSEntry.dir _ _ _ :: rest => acceptedHere mfs root_path inc exc gi cur rest

mutual

/-- All accepted files in the subtree of a visited directory. -/
def accVisit (mfs : Nat) (root_path : List String)
    (inc exc : Option (List String)) (gi : Option Scopes)
    (cur : List String) : FSEntry → List (List String)
  | FSEntry.file _ => []
  | FSEntry.dir _ _ es =>
    acceptedHere mfs root_path inc exc gi cur es ++
    accSubdirs mfs root_path inc exc gi cur es

/-- All accepted files in the surviving subdirectories. -/
def accSubdirs (mfs : Nat) (root_path : List String)
    (inc exc : Option (List String)) (gi : Option Scopes)
    (cur : List String) : List FSEntry → List (List String)
  | [] => []
  | e :: rest =>
    (match e with
     | FSEntry.file _ => []
     | FSEntry.dir n listable _ =>
       if should_skip_directory (cur ++ [ n ]) root_path then []
       else if listable then accVisit mfs root_path inc exc gi (cur ++ [ n ]) e
       else []) ++ accSubdirs mfs root_path inc exc gi cur rest

end

mutual

/-- No entry named .gitignore anywhere in this subtree. -/
def noGitignore : FSEntry → Bool
  | FSEntry.file m => m.name ≠ ( ".gitignore" )
  | FSEntry.dir n _ es => n ≠ ( ".gitignore" ) && noGitignoreList es

/-- No entry named .gitignore anywhere in these subtrees. -/
def noGitignoreList : List FSEntry → Bool
  | [] => true
  | e :: es => noGitignore e && noGitignoreList es

end

/-- A path segment that is neither a skip-list name nor a packaging
metadata suffix. -/
def goodSeg (s : String) : Bool :=
  !(skip_directories.contains s || strEndsWith s ( ".egg-info" ))

/-- One pattern of one gitignore scope, as a predicate (the loop body of
gitignoreScopeMatches). -/
def scopePatMatches (filename normPath : String) (relParts : List String)
    (pat : String) : Bool :=
  let p := strLower pat
  fnmatch filename p || fnmatch normPath p ||
    (match pathMatch relParts p with
     | Except.ok true => true
     | Except.ok false => false
     | Except.error _ => false)

/-- One gitignore scope, as a predicate on the file (the loop body of
matches_gitignore). -/
def scopeMatches (file_path : List String)
    (kv : List String × List String) : Bool :=
  match relativeTo file_path kv.1 with
  | none => false
  | some rel =>
    gitignoreScopeMatches (strLower (pathName file_path))
      (normalize_path rel) rel kv.2

/-!
## Lemmas about the traversal
-/

theorem isPrefixOf_append_right {a b : List String} (c : List String)
    (h : List.isPrefixOf a b = true) : List.isPrefixOf a (b ++ c) = true := by
  rw [List.isPrefixOf_iff_prefix] at h ⊢
  exact h.trans (List.prefix_append b c)

theorem isPrefixOf_self (a : List String) : List.isPrefixOf a a = true := by
  rw [List.isPrefixOf_iff_prefix]

theorem relativeTo_eq_some {p root : List String}
    (h : List.isPrefixOf root p = true) :
    relativeTo p root = some (p.drop root.length) := by
  simp [relativeTo, h]

theorem relativeTo_append (root rel : List String) :
    relativeTo (root ++ rel) root = some rel := by
  rw [relativeTo_eq_some (isPrefixOf_append_right rel (isPrefixOf_self root))]
  simp

theorem relativeTo_eq_none {p root : List String}
    (h : ¬ List.isPrefixOf root p = true) : relativeTo p root = none := by
  simp [relativeTo, h]

theorem matches_pattern_isOk (p root_path : List String) (pats : List String)
    (h : List.isPrefixOf root_path p = true) :
    ∃ b, matches_pattern (some p) pats root_path = Except.ok b := by
  by_cases hp : pats = []
  · exact ⟨false, by simp [matches_pattern, hp]⟩
  · refine ⟨matchesPatternLoop (strLower (pathName p))
      (normalize_path (p.drop root_path.length)) (p.drop root_path.length) pats, ?_⟩
    simp [matches_pattern, hp, relativeTo_eq_some h]

theorem should_include_file_isOk (fp root_path : List String)
    (inc exc : Option (List String)) (gi : Option Scopes)
    (h : List.isPrefixOf root_path fp = true) :
    ∃ b, should_include_file fp root_path inc exc gi = Except.ok b := by
  unfold should_include_file
  by_cases hgi : (truthyScopes gi &&
      matches_gitignore fp (gi.getD [])) = true
  · exact ⟨false, by rw [if_pos hgi]⟩
  · rw [if_neg hgi]
    obtain ⟨be, hbe⟩ := matches_pattern_isOk fp root_path (exc.getD []) h
    obtain ⟨bi, hbi⟩ := matches_pattern_isOk fp root_path (inc.getD []) h
    by_cases hexc : truthyList exc = true
    · rw [if_pos hexc, hbe]
      cases be
      · by_cases hinc : truthyList inc = true
        · exact ⟨bi, by rw [if_pos hinc, hbi]⟩
        · exact ⟨true, by rw [if_neg hinc]⟩
      · exact ⟨false, rfl⟩
    · rw [if_neg hexc]
      by_cases hinc : truthyList inc = true
      · exact ⟨bi, by rw [if_pos hinc, hbi]⟩
      · exact ⟨true, by rw [if_neg hinc]⟩

theorem should_include_fileB_spec (fp root_path : List String)
    (inc exc : Option (List String)) (gi : Option Scopes)
    (h : List.isPrefixOf root_path fp = true) :
    should_include_file fp root_path inc exc gi =
      Except.ok (should_include_fileB fp root_path inc exc gi) := by
  obtain ⟨b, hb⟩ := should_include_file_isOk fp root_path inc exc gi h
  rw [hb, should_include_fileB, hb]

theorem walkFilesHere_eq (mfs : Nat) (root_path : List String)
    (inc exc : Option (List String)) (gi : Option Scopes)
    (cur : List String) (h : List.isPrefixOf root_path cur = true) :
    ∀ es, walkFilesHere mfs root_path inc exc gi cur es =
      (acceptedHere mfs root_path inc exc gi cur es, false)
  | [] => by simp [walkFilesHere, acceptedHere]
  | FSEntry.file m :: rest => by
    have hfp : List.isPrefixOf root_path (cur ++ [ m.name ]) = true :=
      isPrefixOf_append_right [ m.name ] h
    have hok := should_include_fileB_spec (cur ++ [ m.name ]) root_path inc exc gi hfp
    have ih := walkFilesHere_eq mfs root_path inc exc gi cur h rest
    by_cases ht : is_text_file m.name (pathStr (cur ++ [ m.name ])) m.size
        m.statOk m.bytes m.readOk mfs = true
    · by_cases hb : should_include_fileB (cur ++ [ m.name ]) root_path inc exc gi = true
      · simp [walkFilesHere, acceptedHere, fileAccepted, ht, hok, hb, ih]
      · rw [Bool.not_eq_true] at hb
        simp [walkFilesHere, acceptedHere, fileAccepted, ht, hok, hb, ih]
    · rw [Bool.not_eq_true] at ht
      simp [walkFilesHere, acceptedHere, fileAccepted, ht, ih]
  | FSEntry.dir n l es :: rest => by
    have ih := walkFilesHere_eq mfs root_path inc exc gi cur h rest
    simp [walkFilesHere, acceptedHere, ih]

mutual

theorem walkVisit_eq (mfs : Nat) (root_path : List String)
    (inc exc : Option (List String)) (gi : Option Scopes)
    (cur : List String) (h : List.isPrefixOf root_path cur = true) :
    ∀ e, walkVisit mfs root_path inc exc gi cur e =
      (accVisit mfs root_path inc exc gi cur e, false)
  | FSEntry.file m => by simp [walkVisit, accVisit]
  | FSEntry.dir n l es => by
    have hf := walkFilesHere_eq mfs root_path inc exc gi cur h es
    have hd := walkSubdirs_eq mfs root_path inc exc gi cur h es
    simp [walkVisit, accVisit, hf, hd]

theorem walkSubdirs_eq (mfs : Nat) (root_path : List String)
    (inc exc : Option (List String)) (gi : Option Scopes)
    (cur : List String) (h : List.isPrefixOf root_path cur = true) :
    ∀ es, walkSubdirs mfs root_path inc exc gi cur es =
      (accSubdirs mfs root_path inc exc gi cur es, false)
  | [] => by simp [walkSubdirs, accSubdirs]
  | FSEntry.file m :: rest => by
    have ih := walkSubdirs_eq mfs root_path inc exc gi cur h rest
    simp [walkSubdirs, accSubdirs, ih]
  | FSEntry.dir n l es :: rest => by
    have ih := walkSubdirs_eq mfs root_path inc exc gi cur h rest
    have hsub := walkVisit_eq mfs root_path inc exc gi (cur ++ [ n ])
      (isPrefixOf_append_right [ n ] h) (FSEntry.dir n l es)
    by_cases hskip : should_skip_directory (cur ++ [ n ]) root_path = true
    · simp [walkSubdirs, accSubdirs, hskip, ih]
    · cases l
      · simp [walkSubdirs, accSubdirs, hskip, ih]
      · simp [walkSubdirs, accSubdirs, hskip, ih, hsub]

end

theorem mem_pySorted_ins (x y : List String) (l : List (List String)) :
    y ∈ pySorted.ins x l ↔ y = x ∨ y ∈ l := by
  induction l with
  | nil => simp [pySorted.ins]
  | cons z zs ih =>
    by_cases hle : partsLe x z = true
    · simp [pySorted.ins, hle]
    · simp [pySorted.ins, hle, ih]
      tauto

theorem mem_pySorted (y : List String) (l : List (List String)) :
    y ∈ pySorted l ↔ y ∈ l := by
  induction l with
  | nil => simp [pySorted, pySorted.go]
  | cons z zs ih =>
    simp [pySorted, pySorted.go, mem_pySorted_ins]
    rw [pySorted] at ih
    simp [ih]

theorem discover_files_eq_acc (root_path : List String) (entries : List FSEntry)
    (inc exc : Option (List String)) (ug : Bool) (mfs : Nat) :
    discover_files root_path true entries inc exc ug mfs =
      (pySorted (accVisit mfs root_path inc exc
        (if ug then some (load_gitignore_patterns root_path true entries)
         else none)
        root_path (FSEntry.dir (pathName root_path) true entries)), []) := by
  have hw := walkVisit_eq mfs root_path inc exc
    (if ug then some (load_gitignore_patterns root_path true entries) else none)
    root_path (isPrefixOf_self root_path)
    (FSEntry.dir (pathName root_path) true entries)
  simp [discover_files, walkDir, hw]

theorem discover_files_spec (root_path : List String) (li : Bool)
    (entries : List FSEntry) (inc exc : Option (List String))
    (ug : Bool) (mfs : Nat) :
    (discover_files root_path li entries inc exc ug mfs).2 = [] ∧
    ∀ p, p ∈ (discover_files root_path li entries inc exc ug mfs).1 ↔
      (li = true ∧ p ∈ accVisit mfs root_path inc exc
        (if ug then some (load_gitignore_patterns root_path li entries)
         else none)
        root_path (FSEntry.dir (pathName root_path) true entries)) := by
  cases li
  · simp [discover_files, pySorted, pySorted.go]
  · rw [discover_files_eq_acc]
    simp [mem_pySorted]

theorem pathName_concat (l : List String) (x : String) :
    pathName (l ++ [ x ]) = x := by
  simp [pathName]

theorem goodSeg_of_not_skip {cur root_path : List String} {n : String}
    (h : should_skip_directory (cur ++ [ n ]) root_path = false) :
    goodSeg n = true := by
  unfold should_skip_directory at h
  rw [pathName_concat] at h
  by_cases hc : (skip_directories.contains n ||
      strEndsWith n ( ".egg-info" )) = true
  · rw [if_pos hc] at h
    exact absurd h (by simp)
  · rw [Bool.not_eq_true] at hc
    simp only [goodSeg, hc, Bool.not_false]

theorem acceptedHere_mem (mfs : Nat) (root_path : List String)
    (inc exc : Option (List String)) (gi : Option Scopes)
    (cur : List String) :
    ∀ es p, p ∈ acceptedHere mfs root_path inc exc gi cur es →
      ∃ m : FMeta, p = cur ++ [ m.name ] ∧
        fileAccepted mfs root_path inc exc gi cur m = true
  | [], p => by simp [acceptedHere]
  | FSEntry.file m :: rest, p => by
    intro hp
    simp only [acceptedHere, List.mem_append] at hp
    rcases hp with hp | hp
    · by_cases hacc : fileAccepted mfs root_path inc exc gi cur m = true
      · rw [if_pos hacc] at hp
        simp at hp
        exact ⟨m, hp, hacc⟩
      · rw [if_neg hacc] at hp
        simp at hp
    · exact acceptedHere_mem mfs root_path inc exc gi cur rest p hp
  | FSEntry.dir n l es :: rest, p => by
    intro hp
    rw [acceptedHere] at hp
    exact acceptedHere_mem mfs root_path inc exc gi cur rest p hp

mutual

theorem accVisit_mem (mfs : Nat) (root_path : List String)
    (inc exc : Option (List String)) (gi : Option Scopes)
    (cur : List String) :
    ∀ e p, p ∈ accVisit mfs root_path inc exc gi cur e →
      ∃ (cur2 : List String) (m : FMeta), p = cur2 ++ [ m.name ] ∧
        fileAccepted mfs root_path inc exc gi cur2 m = true ∧
        ∃ relc, cur2 = cur ++ relc ∧ ∀ s ∈ relc, goodSeg s = true
  | FSEntry.file m, p => by simp [accVisit]
  | FSEntry.dir n l es, p => by
    intro hp
    simp only [accVisit, List.mem_append] at hp
    rcases hp with hp | hp
    · obtain ⟨m, hm, hacc⟩ := acceptedHere_mem mfs root_path inc exc gi cur es p hp
      exact ⟨cur, m, hm, hacc, [], by simp⟩
    · exact accSubdirs_mem mfs root_path inc exc gi cur es p hp

theorem accSubdirs_mem (mfs : Nat) (root_path : List String)
    (inc exc : Option (List String)) (gi : Option Scopes)
    (cur : List String) :
    ∀ es p, p ∈ accSubdirs mfs root_path inc exc gi cur es →
      ∃ (cur2 : List String) (m : FMeta), p = cur2 ++ [ m.name ] ∧
        fileAccepted mfs root_path inc exc gi cur2 m = true ∧
        ∃ relc, cur2 = cur ++ relc ∧ ∀ s ∈ relc, goodSeg s = true
  | [], p => by simp [accSubdirs]
  | FSEntry.file m :: rest, p => by
    intro hp
    simp only [accSubdirs, List.mem_append] at hp
    rcases hp with hp | hp
    · simp at hp
    · exact accSubdirs_mem mfs root_path inc exc gi cur rest p hp
  | FSEntry.dir n l es :: rest, p => by
    intro hp
    simp only [accSubdirs, List.mem_append] at hp
    rcases hp with hp | hp
    · by_cases hskip : should_skip_directory (cur ++ [ n ]) root_path = true
      · rw [if_pos hskip] at hp
        simp at hp
      · rw [if_neg hskip] at hp
        cases l
        · simp at hp
        · simp only [if_true] at hp
          obtain ⟨cur2, m, hm, hacc, relc, hc2, hgood⟩ :=
            accVisit_mem mfs root_path inc exc gi (cur ++ [ n ])
              (FSEntry.dir n true es) p hp
          refine ⟨cur2, m, hm, hacc, n :: relc, ?_, ?_⟩
          · rw [hc2, List.append_assoc]
            rfl
          · intro s hs
            rcases List.mem_cons.1 hs with hs | hs
            · subst hs
              exact goodSeg_of_not_skip (Bool.not_eq_true _ ▸ hskip)
            · exact hgood s hs
    · exact accSubdirs_mem mfs root_path inc exc gi cur rest p hp

end

/-!
## Lemmas about the gitignore machinery
-/

theorem gitignoreScopeMatches_eq_any (filename normPath : String)
    (relParts : List String) :
    ∀ pats, gitignoreScopeMatches filename normPath relParts pats =
      pats.any (scopePatMatches filename normPath relParts)
  | [] => by simp [gitignoreScopeMatches]
  | pat :: rest => by
    have ih := gitignoreScopeMatches_eq_any filename normPath relParts rest
    simp only [gitignoreScopeMatches, List.any_cons, ih, scopePatMatches]
    by_cases h1 : fnmatch filename (strLower pat) = true
    · simp [h1]
    · rw [Bool.not_eq_true] at h1
      by_cases h2 : fnmatch normPath (strLower pat) = true
      · simp [h1, h2]
      · rw [Bool.not_eq_true] at h2
        simp only [h1, h2, if_false, Bool.false_or]
        cases hpm : pathMatch relParts (strLower pat) with
        | error e => simp [hpm]
        | ok b => cases b <;> simp [hpm]

theorem matches_gitignore_eq_any (file_path : List String) :
    ∀ scopes, matches_gitignore file_path scopes =
      scopes.any (scopeMatches file_path)
  | [] => by simp [matches_gitignore]
  | (parent, pats) :: rest => by
    have ih := matches_gitignore_eq_any file_path rest
    simp only [matches_gitignore, List.any_cons, ih, scopeMatches]
    cases hrel : relativeTo file_path parent with
    | none => simp [hrel]
    | some rel =>
      by_cases hm : gitignoreScopeMatches (strLower (pathName file_path))
          (normalize_path rel) rel pats = true
      · simp [hrel, hm]
      · rw [Bool.not_eq_true] at hm
        simp [hrel, hm]

theorem matches_gitignore_of_scope (file_path parent : List String)
    (pats : List String) (pat : String) (rel : List String)
    (scopes : Scopes) (hs : (parent, pats) ∈ scopes)
    (hrel : relativeTo file_path parent = some rel) (hp : pat ∈ pats)
    (hf : fnmatch (strLower (pathName file_path)) (strLower pat) = true) :
    matches_gitignore file_path scopes = true := by
  rw [matches_gitignore_eq_any]
  refine List.any_eq_true.2 ⟨(parent, pats), hs, ?_⟩
  simp only [scopeMatches, hrel]
  rw [gitignoreScopeMatches_eq_any]
  refine List.any_eq_true.2 ⟨pat, hp, ?_⟩
  simp [scopePatMatches, hf]

theorem should_include_file_of_gitignore (fp root_path : List String)
    (inc exc : Option (List String)) (scopes : Scopes)
    (h : matches_gitignore fp scopes = true) :
    should_include_file fp root_path inc exc (some scopes) =
      Except.ok false := by
  cases scopes with
  | nil => simp [matches_gitignore] at h
  | cons kv rest =>
    have ht : (truthyScopes (some (kv :: rest)) &&
        matches_gitignore fp ((some (kv :: rest)).getD [])) = true := by
      simp only [truthyScopes, Option.getD_some, h, List.isEmpty_cons,
        Bool.not_false, Bool.and_self]
    unfold should_include_file
    rw [if_pos ht]

theorem not_mem_discover_of_gitignore (root_path : List String) (li : Bool)
    (entries : List FSEntry) (inc exc : Option (List String)) (mfs : Nat)
    (p : List String)
    (h : matches_gitignore p (load_gitignore_patterns root_path li entries)
      = true) :
    p ∉ (discover_files root_path li entries inc exc true mfs).1 := by
  intro hmem
  obtain ⟨-, hiff⟩ := discover_files_spec root_path li entries inc exc true mfs
  obtain ⟨hli, hacc⟩ := (hiff p).1 hmem
  subst hli
  obtain ⟨cur2, m, hpp, hfa, -⟩ :=
    accVisit_mem mfs root_path inc exc
      (if true then some (load_gitignore_patterns root_path true entries)
       else none)
      root_path (FSEntry.dir (pathName root_path) true entries) p hacc
  rw [if_pos rfl] at hfa
  unfold fileAccepted at hfa
  rw [Bool.and_eq_true] at hfa
  have hB := hfa.2
  unfold should_include_fileB at hB
  rw [hpp] at h
  rw [should_include_file_of_gitignore _ root_path inc exc _ h] at hB
  simp at hB

/-!
## Lemmas for the no-ignore-file comparison
-/

theorem should_include_file_scopes_nil (fp root_path : List String)
    (inc exc : Option (List String)) :
    should_include_file fp root_path inc exc (some []) =
      should_include_file fp root_path inc exc none := rfl

theorem fileAccepted_scopes_nil (mfs : Nat) (root_path : List String)
    (inc exc : Option (List String)) (cur : List String) (m : FMeta) :
    fileAccepted mfs root_path inc exc (some []) cur m =
      fileAccepted mfs root_path inc exc none cur m := by
  simp [fileAccepted, should_include_fileB, should_include_file_scopes_nil]

theorem acceptedHere_scopes_nil (mfs : Nat) (root_path : List String)
    (inc exc : Option (List String)) (cur : List String) :
    ∀ es, acceptedHere mfs root_path inc exc (some []) cur es =
      acceptedHere mfs root_path inc exc none cur es
  | [] => by simp [acceptedHere]
  | FSEntry.file m :: rest => by
    have ih := acceptedHere_scopes_nil mfs root_path inc exc cur rest
    simp only [acceptedHere, ih, fileAccepted_scopes_nil]
  | FSEntry.dir n l es :: rest => by
    have ih := acceptedHere_scopes_nil mfs root_path inc exc cur rest
    simp only [acceptedHere, ih]

mutual

theorem accVisit_scopes_nil (mfs : Nat) (root_path : List String)
    (inc exc : Option (List String)) (cur : List String) :
    ∀ e, accVisit mfs root_path inc exc (some []) cur e =
      accVisit mfs root_path inc exc none cur e
  | FSEntry.file m => by simp [accVisit]
  | FSEntry.dir n l es => by
    have h1 := acceptedHere_scopes_nil mfs root_path inc exc cur es
    have h2 := accSubdirs_scopes_nil mfs root_path inc exc cur es
    simp only [accVisit, h1, h2]

theorem accSubdirs_scopes_nil (mfs : Nat) (root_path : List String)
    (inc exc : Option (List String)) (cur : List String) :
    ∀ es, accSubdirs mfs root_path inc exc (some []) cur es =
      accSubdirs mfs root_path inc exc none cur es
  | [] => by simp [accSubdirs]
  | FSEntry.file m :: rest => by
    have ih := accSubdirs_scopes_nil mfs root_path inc exc cur rest
    simp only [accSubdirs, ih]
  | FSEntry.dir n l es :: rest => by
    have ih := accSubdirs_scopes_nil mfs root_path inc exc cur rest
    have hv := accVisit_scopes_nil mfs root_path inc exc (cur ++ [ n ])
      (FSEntry.dir n l es)
    simp only [accSubdirs, ih, hv]

end

mutual

theorem rglobGitignore_empty (cur : List String) :
    ∀ e, noGitignore e = true → rglobGitignore cur e = []
  | FSEntry.file m => by
    intro h
    simp [noGitignore] at h
    simp [rglobGitignore, h]
  | FSEntry.dir n l es => by
    intro h
    simp only [noGitignore, Bool.and_eq_true] at h
    have hl := rglobGitignoreList_empty (cur ++ [ n ]) es h.2
    have hn : ¬ n = ( ".gitignore" ) := by
      intro he
      rw [he] at h
      simp at h
    simp [rglobGitignore, hn, hl]

theorem rglobGitignoreList_empty (cur : List String) :
    ∀ es, noGitignoreList es = true → rglobGitignoreList cur es = []
  | [] => by intro h; simp [rglobGitignoreList]
  | e :: rest => by
    intro h
    simp only [noGitignoreList, Bool.and_eq_true] at h
    have h1 := rglobGitignore_empty cur e h.1
    have h2 := rglobGitignoreList_empty cur rest h.2
    simp [rglobGitignoreList, h1, h2]

end

theorem load_gitignore_patterns_empty (root_path : List String) (li : Bool)
    (entries : List FSEntry) (h : noGitignoreList entries = true) :
    load_gitignore_patterns root_path li entries = [] := by
  cases li
  · simp [load_gitignore_patterns]
  · simp [load_gitignore_patterns, rglobGitignoreList_empty root_path entries h]

/-!
## Lemmas about reading and decoding
-/

theorem utf8DecodeIgnoreF_ascii :
    ∀ (fuel : Nat) (bytes : List Nat), bytes.length ≤ fuel →
      (∀ b ∈ bytes, b < 128) →
      utf8DecodeIgnoreF fuel bytes = bytes.map Char.ofNat
  | 0, [] => by intro _ _; simp [utf8DecodeIgnoreF]
  | fuel + 1, [] => by intro _ _; simp [utf8DecodeIgnoreF]
  | 0, b :: bs => by intro h _; simp at h
  | fuel + 1, b :: bs => by
    intro hlen hb
    have hb0 : b < 128 := hb b (by simp)
    have ih := utf8DecodeIgnoreF_ascii fuel bs
      (by simp at hlen; omega) (fun x hx => hb x (by simp [hx]))
    simp only [utf8DecodeIgnoreF, List.map_cons]
    rw [if_pos (by omega : b < 0x80)]
    rw [ih]

theorem utf8Size_ofNat_fin : ∀ b : Fin 128, (Char.ofNat b.val).utf8Size = 1 := by
  decide

theorem utf8Len_ascii :
    ∀ bytes : List Nat, (∀ b ∈ bytes, b < 128) →
      utf8Len (bytes.map Char.ofNat) = bytes.length
  | [] => by intro _; simp [utf8Len]
  | b :: bs => by
    intro hb
    have hb0 : b < 128 := hb b (by simp)
    have ih := utf8Len_ascii bs (fun x hx => hb x (by simp [hx]))
    have h1 : (Char.ofNat b).utf8Size = 1 := utf8Size_ofNat_fin ⟨b, hb0⟩
    simp only [utf8Len, List.map_cons, List.sum_cons, List.length_cons] at ih ⊢
    rw [h1, ih]
    omega

theorem univNewlines_of_no_cr :
    ∀ cs : List Char, (∀ c ∈ cs, c ≠ '\r') → univNewlines cs = cs := by
  intro cs
  induction cs with
  | nil => intro _; rfl
  | cons c cs ih =>
    intro h
    have hc : c ≠ '\r' := h c (by simp)
    have ih2 := ih (fun x hx => h x (by simp [hx]))
    rw [univNewlines.eq_def]
    split <;> simp_all

theorem ofNat_eq_cr_iff_fin :
    ∀ b : Fin 128, Char.ofNat b.val = '\r' ↔ b.val = 13 := by
  decide

theorem map_ofNat_no_cr (bytes : List Nat) (hb : ∀ b ∈ bytes, b < 128)
    (h13 : ∀ b ∈ bytes, b ≠ 13) :
    ∀ c ∈ bytes.map Char.ofNat, c ≠ '\r' := by
  intro c hc
  obtain ⟨b, hbm, hbe⟩ := List.mem_map.1 hc
  subst hbe
  intro he
  exact h13 b hbm ((ofNat_eq_cr_iff_fin ⟨b, hb b hbm⟩).1 he)

/-!
## Claim theorems
-/

/-- C1 counterexample: for the concrete non-null path other/a.py, root
project and the non-empty pattern list ["*.py"], matches_pattern raises
ValueError instead of returning false as the claim states. -/
theorem C1_counterexample :
    matches_pattern (some [ "other", "a.py" ]) [ "*.py" ] [ "project" ] =
      Except.error PyErr.valueError ∧
    ¬ matches_pattern (some [ "other", "a.py" ]) [ "*.py" ] [ "project" ] =
      Except.ok false := by
  decide

/-- C1 amended: with a non-empty pattern list, a non-null path that is not
contained under the given root makes matches_pattern raise ValueError
rather than return false; a null path raises AttributeError; an empty
pattern list returns false without touching the path. -/
theorem C1_noncontained_path_raises (p root_path : List String)
    (pats : List String) :
    (pats ≠ [] → List.isPrefixOf root_path p = false →
      matches_pattern (some p) pats root_path =
        Except.error PyErr.valueError) ∧
    (pats ≠ [] →
      matches_pattern none pats root_path =
        Except.error PyErr.attributeError) ∧
    matches_pattern (some p) [] root_path = Except.ok false ∧
    matches_pattern none [] root_path = Except.ok false := by
  refine ⟨?_, ?_, by simp [matches_pattern], by simp [matches_pattern]⟩
  · intro hne hpre
    simp [matches_pattern, hne, relativeTo, hpre]
  · intro hne
    simp [matches_pattern, hne]

/-- C1 witness: the amended theorem applied at a concrete input. -/
theorem C1_witness :
    matches_pattern (some [ "q", "x.py" ]) [ "*.py" ] [ "r" ] =
      Except.error PyErr.valueError :=
  (C1_noncontained_path_raises [ "q", "x.py" ] [ "r" ] [ "*.py" ]).1
    (by decide) (by decide)

/-- C2 counterexample: with no configuration at all (the default entry
into process_repositories), use_gitignore is False, so a .gitignore with
"*.log" in the root does NOT exclude d/sub/app.log from discovery, while
an explicitly enabled discovery does exclude it - ignore rules are not
honored by default at the entry point. -/
theorem C2_counterexample :
    process_repositories_use_gitignore false none = false ∧
    [ "d", "sub", "app.log" ] ∈
      (discover_files [ "d" ] true
        [ giFile [ "*.log" ],
          FSEntry.dir ( "sub" ) true [ txtFile ( "app.log" ) ] ]
        none none (process_repositories_use_gitignore false none) 16384).1 ∧
    [ "d", "sub", "app.log" ] ∉
      (discover_files [ "d" ] true
        [ giFile [ "*.log" ],
          FSEntry.dir ( "sub" ) true [ txtFile ( "app.log" ) ] ]
        none none true 16384).1 := by
  decide

/-- C2 amended: the processing entry point applies ignore rules only when
the configuration explicitly enables them (its default is off), while
discover_files itself defaults its use_gitignore parameter to on, and
process_directory forwards the entry point's flag to discovery unchanged. -/
theorem C2_entry_gitignore_opt_in :
    (∀ b, process_repositories_use_gitignore true (some b) = b) ∧
    (∀ c, process_repositories_use_gitignore c none = false) ∧
    (∀ root_path li entries inc exc mfs,
      discover_files_default root_path li entries inc exc mfs =
        discover_files root_path li entries inc exc true mfs) ∧
    (∀ root_path li entries inc exc ug mfs,
      process_directory_files root_path li entries inc exc ug mfs =
        (discover_files root_path li entries inc exc ug mfs).1) := by
  refine ⟨fun b => by cases b <;> rfl, fun c => by cases c <;> rfl,
    fun _ _ _ _ _ _ => rfl, fun _ _ _ _ _ _ _ => rfl⟩

/-- C3 counterexample: for a 5-line file and preview limit 2, the record
keeps the first 2 lines and the truncation marker is "preview", but the
trailer line states the preview limit 2, not the number of elided lines:
it does not mention 3 anywhere. -/
theorem C3_counterexample :
    (apply_preview ( "l1\nl2\nl3\nl4\nl5" ) true (some 2)).1 =
      ( "l1\nl2\n[... Preview truncated after 2 lines ...]" ) ∧
    (pySplitlines (apply_preview ( "l1\nl2\nl3\nl4\nl5" ) true (some 2)).1).getLast?
      = some ( "[... Preview truncated after 2 lines ...]" ) ∧
    strContains ( "[... Preview truncated after 2 lines ...]" ) ( "3" ) = false ∧
    (apply_preview ( "l1\nl2\nl3\nl4\nl5" ) true (some 2)).2 =
      some ( "preview" ) := by
  decide

/-- C3 amended: for a positive preview limit N and content with more than
N lines, the record keeps exactly the first N content lines followed by
one trailer line stating the preview limit N (not the elided count), and
the truncation marker is "preview" regardless of whether the read was
also size-truncated. -/
theorem C3_preview_keeps_first_lines (content : String) (truncated : Bool)
    (n : Nat) (hn : 0 < n) (hlen : n < (pySplitlines content).length) :
    apply_preview content truncated (some n) =
      (String.mk ((strJoin (String.mk [ '\n' ])
          ((pySplitlines content).take n)).data ++
        '\n' :: (previewMarker n).data), some ( "preview" )) := by
  have hn0 : n ≠ 0 := Nat.pos_iff_ne_zero.mp hn
  simp only [apply_preview, if_pos hn0]
  rw [if_pos hlen]

/-- C3 witness: the amended theorem applied at a concrete input. -/
theorem C3_witness :
    apply_preview ( "a\nb\nc" ) false (some 1) =
      (String.mk ((strJoin (String.mk [ '\n' ])
          ((pySplitlines ( "a\nb\nc" )).take 1)).data ++
        '\n' :: (previewMarker 1).data), some ( "preview" )) :=
  C3_preview_keeps_first_lines ( "a\nb\nc" ) false 1 (by decide) (by decide)

/-- C4 counterexample: the truncated read returns the first
max_file_size CHARACTERS of the decoded, newline-translated text, not the
first max_file_size bytes: a 4-byte file of two 2-byte UTF-8 characters
read with max_file_size 3 returns content that re-encodes to 4 bytes, and
the pure-ASCII 5-byte file b"a\r\nbc" with max_file_size 3 returns
"a\nb" (universal newlines translated before counting), which is not the
decode of its first 3 bytes. -/
theorem C4_counterexample :
    read_file_content true (String.mk []) [ 0xC3, 0xA9, 0xC3, 0xA9 ] 3 =
      ([ 'é', 'é' ], true) ∧
    utf8Len (read_file_content true (String.mk [])
      [ 0xC3, 0xA9, 0xC3, 0xA9 ] 3).1 = 4 ∧
    read_file_content true (String.mk []) [ 97, 13, 10, 98, 99 ] 3 =
      ([ 'a', '\n', 'b' ], true) ∧
    ¬ (read_file_content true (String.mk []) [ 97, 13, 10, 98, 99 ] 3).1 =
      textStream (List.take 3 [ 97, 13, 10, 98, 99 ]) := by
  decide

/-- C4 amended: a file of exactly max_file_size bytes is returned whole
with truncated=false; a larger file is returned truncated=true with the
first max_file_size characters of the leniently decoded,
universal-newline-translated content (a character count after decoding
and newline translation, not a byte count); when the content is pure
ASCII and free of carriage returns this equals the decode of exactly the
first max_file_size bytes. -/
theorem C4_read_truncation (bytes : List Nat) (mfs : Nat) (errMsg : String) :
    (bytes.length = mfs →
      read_file_content true errMsg bytes mfs = (textStream bytes, false)) ∧
    (bytes.length > mfs →
      read_file_content true errMsg bytes mfs =
        ((textStream bytes).take mfs, true)) ∧
    (bytes.length > mfs → (∀ b ∈ bytes, b < 128) → (∀ b ∈ bytes, b ≠ 13) →
      (read_file_content true errMsg bytes mfs).1 =
        textStream (bytes.take mfs) ∧
      utf8Len (read_file_content true errMsg bytes mfs).1 = mfs) := by
  refine ⟨?_, ?_, ?_⟩
  · intro h
    rw [read_file_content, if_neg (by simp), if_neg (by omega)]
  · intro h
    rw [read_file_content, if_neg (by simp), if_pos h]
  · intro h hascii h13
    have hdec : utf8DecodeIgnore bytes = bytes.map Char.ofNat :=
      utf8DecodeIgnoreF_ascii bytes.length bytes le_rfl hascii
    have hdec2 : utf8DecodeIgnore (bytes.take mfs) =
        (bytes.take mfs).map Char.ofNat := by
      apply utf8DecodeIgnoreF_ascii _ _ le_rfl
      intro x hx
      exact hascii x (List.mem_of_mem_take hx)
    have hnl : univNewlines (bytes.map Char.ofNat) = bytes.map Char.ofNat :=
      univNewlines_of_no_cr _ (map_ofNat_no_cr bytes hascii h13)
    have hnl2 : univNewlines ((bytes.take mfs).map Char.ofNat) =
        (bytes.take mfs).map Char.ofNat :=
      univNewlines_of_no_cr _ (map_ofNat_no_cr (bytes.take mfs)
        (fun x hx => hascii x (List.mem_of_mem_take hx))
        (fun x hx => h13 x (List.mem_of_mem_take hx)))
    have hcontent : (read_file_content true errMsg bytes mfs).1 =
        (textStream bytes).take mfs := by
      rw [read_file_content, if_neg (by simp), if_pos h]
    constructor
    · simp only [hcontent, textStream, hdec, hdec2, hnl, hnl2]
      rw [List.map_take]
    · simp only [hcontent, textStream, hdec, hnl]
      rw [← List.map_take]
      rw [utf8Len_ascii (bytes.take mfs)
        (fun x hx => hascii x (List.mem_of_mem_take hx))]
      simp
      omega

/-- C4 witness: the amended theorem applied at concrete inputs, with all
three parts exercised (an exactly-max read, a truncated read, and a
truncated CR-free ASCII read). -/
theorem C4_witness :
    read_file_content true (String.mk []) [ 104, 105 ] 2 =
      (textStream [ 104, 105 ], false) ∧
    read_file_content true (String.mk []) [ 104, 105, 106 ] 2 =
      ((textStream [ 104, 105, 106 ]).take 2, true) ∧
    (read_file_content true (String.mk []) [ 97, 98, 99 ] 2).1 =
      textStream (List.take 2 [ 97, 98, 99 ]) ∧
    utf8Len (read_file_content true (String.mk []) [ 97, 98, 99 ] 2).1 = 2 :=
  ⟨(C4_read_truncation [ 104, 105 ] 2 (String.mk [])).1 (by decide),
   (C4_read_truncation [ 104, 105, 106 ] 2 (String.mk [])).2.1 (by decide),
   ((C4_read_truncation [ 97, 98, 99 ] 2 (String.mk [])).2.2 (by decide)
     (by decide) (by decide)).1,
   ((C4_read_truncation [ 97, 98, 99 ] 2 (String.mk [])).2.2 (by decide)
     (by decide) (by decide)).2⟩

/-- C5 counterexample: a permission failure on the subtree r/locked is
tolerated and the traversal continues to the later subtree r/m, but NO
warning is logged (the warning list is empty): the claimed
"by logging a warning" does not happen - os.walk skips the unlistable
directory silently. -/
theorem C5_counterexample :
    (discover_files [ "r" ] true
      [ FSEntry.dir ( "locked" ) false [ txtFile ( "x.txt" ) ],
        FSEntry.dir ( "m" ) true [ txtFile ( "z.txt" ) ] ]
      none none false 16384).2 = [] ∧
    [ "r", "m", "z.txt" ] ∈
      (discover_files [ "r" ] true
        [ FSEntry.dir ( "locked" ) false [ txtFile ( "x.txt" ) ],
          FSEntry.dir ( "m" ) true [ txtFile ( "z.txt" ) ] ]
        none none false 16384).1 ∧
    [ "r", "locked", "x.txt" ] ∉
      (discover_files [ "r" ] true
        [ FSEntry.dir ( "locked" ) false [ txtFile ( "x.txt" ) ],
          FSEntry.dir ( "m" ) true [ txtFile ( "z.txt" ) ] ]
        none none false 16384).1 := by
  decide

/-- C5 amended: discovery never aborts and emits no traversal warning:
unlistable subtrees and unreadable individual files are skipped silently
and the walk continues, returning exactly the files reachable through
listable, unpruned directories that pass the text and inclusion filters -
including every file in subtrees visited after a failing one. -/
theorem C5_traversal_tolerance (root_path : List String) (li : Bool)
    (entries : List FSEntry) (inc exc : Option (List String)) (ug : Bool)
    (mfs : Nat) :
    (discover_files root_path li entries inc exc ug mfs).2 = [] ∧
    ∀ p, p ∈ (discover_files root_path li entries inc exc ug mfs).1 ↔
      (li = true ∧ p ∈ accVisit mfs root_path inc exc
        (if ug then some (load_gitignore_patterns root_path li entries)
         else none)
        root_path (FSEntry.dir (pathName root_path) true entries)) :=
  discover_files_spec root_path li entries inc exc ug mfs

/-- C6 counterexample: when the root directory itself is named
node_modules, discovery returns node_modules/a.txt, a path that lies
inside a directory whose name is on the fixed skip-list - the pruning
only applies strictly below the root. -/
theorem C6_counterexample :
    [ "node_modules", "a.txt" ] ∈
      (discover_files [ "node_modules" ] true [ txtFile ( "a.txt" ) ]
        none none false 16384).1 ∧
    ( "node_modules" ) ∈ ([ "node_modules", "a.txt" ] : List String).dropLast ∧
    ( "node_modules" ) ∈ skip_directories := by
  decide

/-- C6 amended: no path returned by discover_files lies, strictly below
the discovery root, inside a directory whose name is a skip-list name or
ends in .egg-info: every segment of the returned path relative to the
root, other than the final filename, avoids both. (The root's own name
and its ancestors are never checked.) -/
theorem C6_no_skip_segments (root_path : List String) (li : Bool)
    (entries : List FSEntry) (inc exc : Option (List String)) (ug : Bool)
    (mfs : Nat) (p : List String)
    (hp : p ∈ (discover_files root_path li entries inc exc ug mfs).1) :
    ∀ s ∈ (p.drop root_path.length).dropLast,
      ¬ s ∈ skip_directories ∧ strEndsWith s ( ".egg-info" ) = false := by
  obtain ⟨-, hiff⟩ := discover_files_spec root_path li entries inc exc ug mfs
  obtain ⟨hli, hacc⟩ := (hiff p).1 hp
  obtain ⟨cur2, m, hpp, -, relc, hc2, hgood⟩ :=
    accVisit_mem mfs root_path inc exc _ root_path
      (FSEntry.dir (pathName root_path) true entries) p hacc
  subst hc2
  subst hpp
  intro s hs
  rw [List.append_assoc, List.drop_left, List.dropLast_concat] at hs
  have hg := hgood s hs
  simp only [goodSeg, Bool.not_eq_true', Bool.or_eq_false_iff] at hg
  refine ⟨?_, hg.2⟩
  intro hmem
  rw [← List.elem_iff] at hmem
  rw [List.contains] at hg
  rw [hmem] at hg
  cases hg.1

/-- C6 witness: the amended theorem applied at a concrete input and at
the one intermediate segment of the returned path. -/
theorem C6_witness :
    ¬ ( "sub" : String) ∈ skip_directories ∧
      strEndsWith ( "sub" ) ( ".egg-info" ) = false :=
  C6_no_skip_segments [ "r" ] true
    [ FSEntry.dir ( "sub" ) true [ txtFile ( "a.py" ) ] ]
    none none false 16384 [ "r", "sub", "a.py" ] (by decide) ( "sub" )
    (by decide)

/-- C7: an ignore scope applies to every path reachable by descending
from its directory and a filename match against any of its patterns marks
the file ignored; any gitignore match excludes the file from discovery
when ignore rules are enabled; concretely, with a .gitignore containing
*.log in directory d, the descendant file d/sub/app.log is excluded from
discovery when ignore rules are enabled and included when they are
disabled, all other settings equal. -/
theorem C7_gitignore_scope_exclusion :
    (∀ (file_path parent : List String) (pats : List String) (pat : String)
        (rel : List String) (scopes : Scopes),
      (parent, pats) ∈ scopes → relativeTo file_path parent = some rel →
      pat ∈ pats →
      fnmatch (strLower (pathName file_path)) (strLower pat) = true →
      matches_gitignore file_path scopes = true) ∧
    (∀ (root_path : List String) (li : Bool) (entries : List FSEntry)
        (inc exc : Option (List String)) (mfs : Nat) (p : List String),
      matches_gitignore p (load_gitignore_patterns root_path li entries)
        = true →
      p ∉ (discover_files root_path li entries inc exc true mfs).1) ∧
    [ "d", "sub", "app.log" ] ∉
      (discover_files [ "d" ] true
        [ giFile [ "*.log" ],
          FSEntry.dir ( "sub" ) true [ txtFile ( "app.log" ) ] ]
        none none true 16384).1 ∧
    [ "d", "sub", "app.log" ] ∈
      (discover_files [ "d" ] true
        [ giFile [ "*.log" ],
          FSEntry.dir ( "sub" ) true [ txtFile ( "app.log" ) ] ]
        none none false 16384).1 := by
  refine ⟨?_, ?_, by decide, by decide⟩
  · intro fp parent pats pat rel scopes hs hrel hpmem hf
    exact matches_gitignore_of_scope fp parent pats pat rel scopes hs hrel
      hpmem hf
  · intro root_path li entries inc exc mfs p hm
    exact not_mem_discover_of_gitignore root_path li entries inc exc mfs p hm

/-- C7 witness: the scope rule of the theorem applied at a concrete
input. -/
theorem C7_witness :
    matches_gitignore [ "d", "sub", "app.log" ]
      [ ([ "d" ], [ "*.log" ]) ] = true :=
  C7_gitignore_scope_exclusion.1 [ "d", "sub", "app.log" ] [ "d" ]
    [ "*.log" ] ( "*.log" ) [ "sub", "app.log" ]
    [ ([ "d" ], [ "*.log" ]) ] (by decide) (by decide) (by decide) (by decide)

/-- C8: a file whose first 1024 bytes contain a null byte is never
classified as text, regardless of its name, extension, size or the other
checks; equivalently, a file classified as text has no null byte in its
first 1024 bytes (the earlier deny-list steps can only reject, never
accept). -/
theorem C8_null_byte_not_text (name fullPathStr : String) (size : Nat)
    (statOk : Bool) (bytes : List Nat) (readOk : Bool) (mfs : Nat) :
    ((bytes.take 1024).contains 0 = true →
      is_text_file name fullPathStr size statOk bytes readOk mfs = false) ∧
    (is_text_file name fullPathStr size statOk bytes readOk mfs = true →
      (bytes.take 1024).contains 0 = false) := by
  have h1 : (bytes.take 1024).contains 0 = true →
      is_text_file name fullPathStr size statOk bytes readOk mfs = false := by
    intro hc
    unfold is_text_file
    split_ifs <;> simp_all
  refine ⟨h1, ?_⟩
  intro ht
  cases hc : (bytes.take 1024).contains 0
  · rfl
  · rw [h1 hc] at ht
    cases ht

/-- C8 witness: the theorem applied at a concrete input. -/
theorem C8_witness :
    is_text_file ( "a.py" ) ( "r/a.py" ) 10 true [ 104, 0 ] true 16384
      = false :=
  (C8_null_byte_not_text ( "a.py" ) ( "r/a.py" ) 10 true [ 104, 0 ] true
    16384).1 (by decide)

/-- C9: retrieving git metadata does not mutate the working directory of
the invoking process: on every exit path on which get_git_info or
is_git_repository returns (rather than propagates an exception), the
process working directory equals what it was before the call. -/
theorem C9_cwd_preserved (g : GitCtx) (cwd0 : String) :
    (∀ b c, is_git_repository g cwd0 = Except.ok (b, c) → c = cwd0) ∧
    (∀ r c, get_git_info g cwd0 = Except.ok (r, c) → c = cwd0) := by
  have h1 : ∀ b c, is_git_repository g cwd0 = Except.ok (b, c) → c = cwd0 := by
    intro b c h
    simp only [is_git_repository] at h
    repeat' split at h
    all_goals first
      | (cases h; rfl)
      | (cases h)
  refine ⟨h1, ?_⟩
  intro r c h
  simp only [get_git_info] at h
  cases hrep : is_git_repository g cwd0 with
  | error d =>
    rw [hrep] at h
    cases h
  | ok bc =>
    obtain ⟨b1, c1⟩ := bc
    have hc1 : c1 = cwd0 := h1 b1 c1 hrep
    subst hc1
    rw [hrep] at h
    cases b1
    all_goals repeat' split at h
    all_goals try (cases h)
    all_goals (clear h1 hrep; simp_all)

/-- C9 witness: the theorem applied at a concrete environment in which
every call succeeds. -/
theorem C9_witness :
    get_git_info
        { repoPath := ( "/repo" ), chdirOk := fun _ => true,
          gitOut := fun _ => some ( "out" ) } ( "/cwd" ) =
      Except.ok (GitResult.info ( "out" ) ( "out" ) ( "out" ) ( "Unknown" ),
        ( "/cwd" )) ∧
    ( "/cwd" : String) = ( "/cwd" ) :=
  ⟨by decide,
   (C9_cwd_preserved
      { repoPath := ( "/repo" ), chdirOk := fun _ => true,
        gitOut := fun _ => some ( "out" ) } ( "/cwd" )).2
     (GitResult.info ( "out" ) ( "out" ) ( "out" ) ( "Unknown" )) ( "/cwd" )
     (by decide)⟩

/-- C10: for a root whose tree contains no .gitignore files, discovery
with ignore rules enabled returns exactly the same result as discovery
with ignore rules disabled, with identical include and exclude patterns:
an empty ignore-scope mapping never excludes any file. -/
theorem C10_no_ignore_files_equal (root_path : List String) (li : Bool)
    (entries : List FSEntry) (inc exc : Option (List String)) (mfs : Nat)
    (h : noGitignoreList entries = true) :
    discover_files root_path li entries inc exc true mfs =
      discover_files root_path li entries inc exc false mfs := by
  have hload := load_gitignore_patterns_empty root_path li entries h
  cases li
  · rfl
  · have e1 := discover_files_eq_acc root_path entries inc exc true mfs
    have e2 := discover_files_eq_acc root_path entries inc exc false mfs
    rw [if_pos rfl] at e1
    rw [if_neg (by simp)] at e2
    rw [hload, accVisit_scopes_nil] at e1
    exact e1.trans e2.symm

/-- C10 witness: the theorem applied at a concrete input. -/
theorem C10_witness :
    discover_files [ "r" ] true [ txtFile ( "a.py" ) ] none none true 16384 =
      discover_files [ "r" ] true [ txtFile ( "a.py" ) ] none none false
        16384 :=
  C10_no_ignore_files_equal [ "r" ] true [ txtFile ( "a.py" ) ] none none
    16384 (by decide)
